import Mathlib

/- Verification of the OpenLANE build-plan engine in amaranth/vendor/openlane.py:
   a shallow embedding of its string-level helpers (name validation, override
   resolution, command assembly, escaping) and of the clock/reset domain
   synthesis callback, together with proofs of the specified properties. -/

/-- The character class `[A-Za-z0-9_]` used by the design-name check in
`OpenLANEPlatform.prepare` and by the `ascii_escape` helper. -/
def isWordChar (c : Char) : Bool :=
  ('A' ≤ c && c ≤ 'Z') || ('a' ≤ c && c ≤ 'z') || ('0' ≤ c && c ≤ '9') || c == '_'

/-- Printable ASCII: codepoints 0x20 through 0x7e. -/
def printableB (c : Char) : Bool :=
  32 ≤ c.toNat && c.toNat ≤ 126

/-- Embedding of `invalid_char = re.match(r"[^A-Za-z0-9_]", name)` in
`OpenLANEPlatform.prepare`.  Python's `re.match` is anchored at the start of
the string, so the single-character pattern can only ever test the first
character of the name. -/
def invalid_char_match (name : List Char) : Option Char :=
  match name with
  | [] => none
  | c :: _ => if isWordChar c then none else some c

/-- Characters treated as whitespace by Python's `\s` and `str.strip` for
ASCII text (the inputs handled here are ASCII). -/
def isPySpace (c : Char) : Bool :=
  c == ' ' || c == '\t' || c == '\n' || c == '\x0b' || c == '\x0c' || c == '\x0d'

/-- Splitting a string at `'\n'`, as `str.split("\n")` does: the result always
has one more element than the number of newlines. -/
def splitLines : List Char → List (List Char)
  | [] => [[]]
  | c :: rest =>
    if c = '\n' then [] :: splitLines rest
    else
      match splitLines rest with
      | [] => [[c]]
      | l :: ls => (c :: l) :: ls

/-- Joining with `'\n'`, as `"\n".join(...)` does. -/
def joinNl : List (List Char) → List Char
  | [] => []
  | [x] => x
  | x :: xs => x ++ '\n' :: joinNl xs

/-- Worker for `collapseWs`; the boolean records whether the previous character
was whitespace (so that a run of whitespace produces a single space). -/
def collapseWsAux : Bool → List Char → List Char
  | _, [] => []
  | prevWs, c :: rest =>
    if isPySpace c then
      if prevWs then collapseWsAux true rest
      else ' ' :: collapseWsAux true rest
    else c :: collapseWsAux false rest

/-- Embedding of `re.sub(r"\s+", " ", command)` in `emit_commands`: every
maximal run of whitespace becomes a single space. -/
def collapseWs (s : List Char) : List Char :=
  collapseWsAux false s

/-- Characters in the class `[ \t]` used by `textwrap.dedent` to find a
common indentation margin. -/
def isIndentChar (c : Char) : Bool :=
  c == ' ' || c == '\t'

/-- Longest common prefix of two strings; `textwrap.dedent` reduces the
margin to this whenever a new indent disagrees with the current margin. -/
def lcp : List Char → List Char → List Char
  | a :: as, b :: bs => if a = b then a :: lcp as bs else []
  | _, _ => []

/-- The common margin of a collection of leading-whitespace indents:
the fold of `lcp` seeded with the first indent, exactly as the loop in
`textwrap.dedent` computes it. -/
def marginOf (indents : List (List Char)) : List Char :=
  match indents with
  | [] => []
  | i :: rest => rest.foldl lcp i

/-- Embedding of Python's `textwrap.dedent`: whitespace-only lines are
normalized to empty ones, the common `[ \t]` margin of all remaining
nonempty lines is computed, and that margin is removed from the start of
every line that carries it. -/
def pyDedent (s : List Char) : List Char :=
  let lines := splitLines s
  let lines1 := lines.map (fun l => if !l.isEmpty && l.all isIndentChar then [] else l)
  let indents := lines1.filterMap (fun l =>
    let ind := l.takeWhile isIndentChar
    if ind.length < l.length then some ind else none)
  let margin := marginOf indents
  joinNl (lines1.map (fun l => if margin.isPrefixOf l then l.drop margin.length else l))

/-- Embedding of Python's `str.strip()` (for ASCII text): whitespace is
removed from both ends. -/
def pyStrip (s : List Char) : List Char :=
  ((s.dropWhile isPySpace).reverse.dropWhile isPySpace).reverse

/-- A call-time keyword value as seen by `get_override`: either a string, to
be dedented and stripped, or any other Python value, passed through (the
abstract tag stands for the identity of such a value). -/
inductive Kwval
  | str (s : List Char)
  | other (tag : Nat)
deriving DecidableEq

/-- The result of `get_override`: a string, a passed-through non-string
value, or the `jinja2.Undefined(name=var)` marker that raises a missing
required option error naming `var` when consumed under strict-undefined
rendering. -/
inductive Override
  | str (s : List Char)
  | other (tag : Nat)
  | undef (nm : List Char)
deriving DecidableEq

/-- Lookup in an association list keyed by strings; used to model both
`os.environ` and the `kwargs` mapping. -/
def assocLookup {α : Type} (m : List (List Char × α)) (k : List Char) : Option α :=
  match m with
  | [] => none
  | (k', v) :: rest => if k' = k then some v else assocLookup rest k

/-- The environment variable consulted for an option: `"AMARANTH_ENV_" + var`. -/
def env_var_name (var : List Char) : List Char :=
  "AMARANTH_ENV_".toList ++ var

/-- Embedding of `re.sub(r'^\"\"$', "", value)`: a value that is exactly the
two-character literal `""` is normalized to the empty string. -/
def strip_empty_quotes (v : List Char) : List Char :=
  if v = "\x22\x22".toList then [] else v

/-- Embedding of `get_override` in `OpenLANEPlatform.prepare`: the
environment wins over the call-time keyword, string keywords are dedented
and stripped, non-strings pass through, and an absent option yields the
strict-undefined marker carrying the option name. -/
def get_override (environ : List (List Char × List Char))
    (kwargs : List (List Char × Kwval)) (var : List Char) : Override :=
  match assocLookup environ (env_var_name var) with
  | some v => .str (strip_empty_quotes v)
  | none =>
    match assocLookup kwargs var with
    | some (.str s) => .str (pyStrip (pyDedent s))
    | some (.other t) => .other t
    | none => .undef var

/-- Concrete environment used by the override-resolution witness. -/
def envW : List (List Char × List Char) :=
  [("AMARANTH_ENV_opt".toList, "x".toList)]

/-- Concrete keyword mapping used by the override-resolution witness. -/
def kwW : List (List Char × Kwval) :=
  [("opt".toList, Kwval.str "  y ".toList), ("num".toList, Kwval.other 7)]

/-- A named signal; the identity of signals in openlane.py beyond their name
is irrelevant to the properties considered here. -/
structure Signal where
  name : List Char
deriving DecidableEq

/-- A `ResetSynchronizer(rst_i, domain="sync")` submodule instance:
its asynchronous reset input and its domain. -/
structure ResetSync where
  arst : Signal
  domain : List Char
deriving DecidableEq

/-- The module built by `create_domain`: its clock domains, the combinational
drive of each domain clock, and its reset-synchronizer submodules. -/
structure SyncModule where
  domains : List (List Char)
  combClk : List (List Char × Signal)
  resetSyncs : List ResetSync
deriving DecidableEq

/-- The platform attributes read and written by `create_domain`:
`default_clk` and `default_rst` name the default clock and reset resources
(or are `None`). -/
structure PlatformState where
  default_clk : Option (List Char)
  default_rst : Option (List Char)
deriving DecidableEq

/-- The outcome of one `create_domain` call: the returned module (or `None`),
the platform state after the call, and the port list after the call. -/
structure DomainOut where
  result : Option SyncModule
  st : PlatformState
  ports : List Signal
deriving DecidableEq

/-- The module assembled in `create_domain`: one domain "sync", its clock
driven by `clk_i`, and one `ResetSynchronizer` on `rst_i` in domain "sync". -/
def mkSyncModule (clk_i rst_i : Signal) : SyncModule :=
  { domains := ["sync".toList]
    combClk := [("sync".toList, clk_i)]
    resetSyncs := [{ arst := rst_i, domain := "sync".toList }] }

/-- Embedding of the callback returned by
`OpenLANEPlatform.create_missing_domain`.  `req` models
`self.request(resource).i` (the pin request is external to this file).  The
outer `Option` is `none` exactly when the `assert 'rst' not in ...` in the
source fails; note the assertion runs after the clock pin was appended. -/
def create_domain (req : List Char → Signal) (p : PlatformState)
    (ports : List Signal) (nm : List Char) : Option DomainOut :=
  match p.default_clk with
  | some clkRes =>
    if nm = "sync".toList then
      let clk_i := req clkRes
      let ports1 := ports ++ [clk_i]
      match p.default_rst with
      | some rstRes =>
        some { result := some (mkSyncModule clk_i (req rstRes)), st := p, ports := ports1 }
      | none =>
        if ports1.any (fun s => s.name == "rst".toList) then none
        else
          let rst_i : Signal := { name := "rst".toList }
          some { result := some (mkSyncModule clk_i rst_i)
                 st := { p with default_rst := some ("rst".toList) }
                 ports := ports1 ++ [rst_i] }
    else some { result := none, st := p, ports := ports }
  | none => some { result := none, st := p, ports := ports }

/-- Concrete pin-request oracle for the domain-synthesis witnesses: resource
`n` yields an input pin signal named `pin_n`. -/
def reqW : List Char → Signal :=
  fun n => { name := "pin_".toList ++ n }

/-- Concrete platform with a default clock and no default reset. -/
def pW : PlatformState :=
  { default_clk := some ("clk".toList), default_rst := none }

/-- Concrete platform with no default clock. -/
def pNoClkW : PlatformState :=
  { default_clk := none, default_rst := none }

/-- The build plan returned by `prepare`: the entry-script name and the
ordered (filename, content) entries. -/
structure BuildPlan where
  script : List Char
  files : List (List Char × List Char)
deriving DecidableEq

/-- Modelled from the spec: `BuildPlan.add_file` lives in
`amaranth.build.run`, which is not under src/.  Per the spec's Build Plan
invariant (no two entries share a filename) and error model (no partial plan
is ever returned), adding an entry whose filename is already present fails
instead of producing a plan. -/
def add_file (p : BuildPlan) (fn content : List Char) : Option BuildPlan :=
  if fn ∈ p.files.map Prod.fst then none
  else some { script := p.script, files := p.files ++ [(fn, content)] }

/-- Embedding of the plan-assembly tail of `OpenLANEPlatform.prepare`:
create the plan with script name `"build_" + name`, add one rendered
(filename, content) entry per file-template pair in declaration order, then
add the caller's extra files verbatim.  `render` models the Jinja2 rendering
of a template string (external to this file). -/
def assemble_plan (nm : List Char) (render : List Char → List Char)
    (file_templates : List (List Char × List Char))
    (extra_files : List (List Char × List Char)) : Option BuildPlan := do
  let p0 : BuildPlan := { script := "build_".toList ++ nm, files := [] }
  let p1 ← file_templates.foldlM (fun p t => add_file p (render t.1) (render t.2)) p0
  extra_files.foldlM (fun p fc => add_file p fc.1 fc.2) p1

/-- Concrete file-template list for the build-plan witness. -/
def ftsW : List (List Char × List Char) :=
  [("config.tcl".toList, "tclbody".toList), ("top.v".toList, "vbody".toList)]

/-- Concrete extra-file list for the build-plan witness. -/
def exW : List (List Char × List Char) :=
  [("notes.txt".toList, "hello".toList)]

/-- Concrete plan produced by `assemble_plan` in the build-plan witness. -/
def planW : BuildPlan :=
  { script := "build_top".toList
    files := [("config.tcl".toList, "tclbody".toList), ("top.v".toList, "vbody".toList),
              ("notes.txt".toList, "hello".toList)] }

/-- Embedding of `OpenLANEPlatform.__init__`: the `assert toolchain in
("Docker", "Local")` makes construction fail (`none`) for every other value;
on success the chosen toolchain is stored unchanged. -/
def openlane_init (toolchain : List Char) : Option (List Char) :=
  if toolchain = "Docker".toList ∨ toolchain = "Local".toList then some toolchain else none

/-- Embedding of the `required_tools` property: the Docker profile requires
exactly `["docker"]` (`_container_required_tools`), the Local profile requires
nothing (`_local_required_tools`), and any other stored value would hit
`assert False`. -/
def required_tools (toolchain : List Char) : Option (List (List Char)) :=
  if toolchain = "Docker".toList then some ["docker".toList]
  else if toolchain = "Local".toList then some []
  else none

/-- The two scripting dialects `emit_commands` can target. -/
inductive Dialect
  | sh
  | bat
deriving DecidableEq

/-- The sh tool-path-initialization line emitted per required tool:
`: ${VAR:=name}` with `VAR` the tool's environment variable (`tev` models
`tool_env_var` from amaranth._toolchain, which is not under src/). -/
def sh_tool_cmd (tev : List Char → List Char) (n : List Char) : List Char :=
  ": $\x7b".toList ++ tev n ++ ":=".toList ++ n ++ "\x7d".toList

/-- First text line of the bat tool initialization:
`if [%VAR%] equ [""] set VAR=`. -/
def bat_line1 (tev : List Char → List Char) (n : List Char) : List Char :=
  "if [%".toList ++ tev n ++ "%] equ [\x22\x22] set ".toList ++ tev n ++ "=".toList

/-- Second text line of the bat tool initialization:
`if [%VAR%] equ [] set VAR=name`. -/
def bat_line2 (tev : List Char → List Char) (n : List Char) : List Char :=
  "if [%".toList ++ tev n ++ "%] equ [] set ".toList ++ tev n ++ "=".toList ++ n

/-- The single bat initialization entry appended to `commands` per required
tool: the source template is one string containing an embedded newline, so
one entry spans two text lines. -/
def bat_tool_cmd (tev : List Char → List Char) (n : List Char) : List Char :=
  bat_line1 tev n ++ '\n' :: bat_line2 tev n

/-- Embedding of `emit_commands` in `OpenLANEPlatform.prepare`: one
initialization entry per required tool, then each rendered command template
(`rendered` models the external Jinja2 render) with whitespace runs collapsed
and, for bat, the suffix `" || exit /b"` appended; all entries are joined
with newlines. -/
def emit_commands (tev : List Char → List Char) (tools : List (List Char))
    (rendered : List (List Char)) (dialect : Dialect) : List Char :=
  joinNl
    (tools.map (fun n =>
      match dialect with
      | .sh => sh_tool_cmd tev n
      | .bat => bat_tool_cmd tev n)
    ++ rendered.map (fun c =>
      match dialect with
      | .sh => collapseWs c
      | .bat => collapseWs c ++ " || exit /b".toList))

/-- Concrete `tool_env_var` oracle for the command-assembly theorems. -/
def tevW : List Char → List Char :=
  fun n => "V_".toList ++ n

/-- Concrete required-tool list (the Docker profile's) for the
command-assembly theorems. -/
def toolsW : List (List Char) :=
  ["docker".toList]

/-- Concrete rendered command-template list for the command-assembly
theorems. -/
def renderedW : List (List Char) :=
  ["docker  run\n  -it".toList]

/-- Lowercase hexadecimal digit for a value below 16, as Python's `"x"`
format code produces. -/
def hexDigitChar (n : Nat) : Char :=
  if n < 10 then Char.ofNat (48 + n) else Char.ofNat (87 + n)

/-- Fueled most-significant-first hexadecimal conversion; the fuel `n + 1` in
`toHex` always suffices because the value shrinks by a factor of 16 each
step. -/
def toHexAux : Nat → Nat → List Char → List Char
  | 0, _, acc => acc
  | fuel + 1, n, acc =>
    if n < 16 then hexDigitChar n :: acc
    else toHexAux fuel (n / 16) (hexDigitChar (n % 16) :: acc)

/-- Minimal-width lowercase hexadecimal digits of a number. -/
def toHex (n : Nat) : List Char :=
  toHexAux (n + 1) n []

/-- Embedding of Python's `"{:02x}".format(n)`: lowercase hexadecimal,
zero-padded to at least two digits. -/
def hex02 (n : Nat) : List Char :=
  let d := toHex n
  if d.length < 2 then '0' :: d else d

/-- Embedding of `ascii_escape` in `OpenLANEPlatform.prepare`: characters in
`[A-Za-z0-9_]` pass through and every other character `c` becomes
`_ + hex(ord(c), zero-padded to 2) + _`. -/
def ascii_escape (s : List Char) : List Char :=
  s.flatMap (fun c => if isWordChar c then [c] else '_' :: (hex02 c.toNat ++ ['_']))

/-- Value of one lowercase hexadecimal digit. -/
def hexVal (c : Char) : Option Nat :=
  if '0' ≤ c ∧ c ≤ '9' then some (c.toNat - 48)
  else if 'a' ≤ c ∧ c ≤ 'f' then some (c.toNat - 87)
  else none

/-- Value of a two-digit lowercase hexadecimal string. -/
def unhex2 (h1 h2 : Char) : Option Nat :=
  match hexVal h1, hexVal h2 with
  | some a, some b => some (16 * a + b)
  | _, _ => none

/-- Decoder for exactly one two-digit escape body. -/
def decodeHex02 : List Char → Option Nat
  | [d1, d2] => unhex2 d1 d2
  | _ => none

/-- Parse of one escape group after its leading underscore: two hexadecimal
digits followed by a closing underscore yield the decoded character and the
remaining input. -/
def parseGroup : List Char → Option (Char × List Char)
  | h1 :: h2 :: c2 :: rest2 =>
    if c2 = '_' then
      match unhex2 h1 h2 with
      | some n => some (Char.ofNat n, rest2)
      | none => none
    else none
  | _ => none

/-- Fueled worker for the decoder; every step consumes at least one input
character, so fuel equal to the input length always suffices. -/
def unescapeFuel : Nat → List Char → Option (List Char)
  | _, [] => some []
  | 0, _ :: _ => none
  | fuel + 1, c :: rest =>
    if c = '_' then
      match parseGroup rest with
      | some (ch, rest2) => (unescapeFuel fuel rest2).map (fun r => ch :: r)
      | none => none
    else (unescapeFuel fuel rest).map (fun r => c :: r)

/-- The evident decoder for `ascii_escape` output: a `_hh_` group decodes to
the character with code `hh`, every other character stands for itself. -/
def ascii_unescape (l : List Char) : Option (List Char) :=
  unescapeFuel l.length l

/-- A value passed to the Tcl escaping filters: a markupsafe `Markup`
(trusted marked-safe text, returned unchanged) or an ordinary string (the
`str()` conversion of other Python values is external to this file). -/
inductive TclVal
  | markup (s : List Char)
  | str (s : List Char)
deriving DecidableEq

/-- The character class `[{}\\]` escaped by `tcl_escape`. -/
def isBraceSpecial (c : Char) : Bool :=
  c = '\x7b' || c = '\x7d' || c = '\x5c'

/-- The character class `[$[\\]` escaped by `tcl_quote`. -/
def isQuoteSpecial (c : Char) : Bool :=
  c = '\x24' || c = '\x5b' || c = '\x5c'

/-- Embedding of `re.sub(r"([..])", r"\\\1", string)`: every character of
the given class is preceded by a backslash. -/
def escBody (special : Char → Bool) (s : List Char) : List Char :=
  s.flatMap (fun c => if special c then ['\x5c', c] else [c])

/-- Embedding of `tcl_escape`: `Markup` values pass through unchanged,
anything else is wrapped in braces with braces and backslashes
backslash-escaped. -/
def tcl_escape : TclVal → List Char
  | .markup s => s
  | .str s => '\x7b' :: (escBody isBraceSpecial s ++ ['\x7d'])

/-- Embedding of `tcl_quote`: `Markup` values pass through unchanged,
anything else is wrapped in double quotes with dollar, open-bracket and
backslash backslash-escaped. -/
def tcl_quote : TclVal → List Char
  | .markup s => s
  | .str s => '\x22' :: (escBody isQuoteSpecial s ++ ['\x22'])

/-- One step of the escape decoder: the character after a backslash must be
in the escaped class and stands for itself. -/
def bsUncons (special : Char → Bool) : List Char → Option (Char × List Char)
  | c2 :: rest2 => if special c2 then some (c2, rest2) else none
  | [] => none

/-- Fueled decoder for `escBody`: a backslash must be followed by an escaped
special character, a bare special character is rejected, any other character
stands for itself.  Success certifies that every special character in the
body is escaped, and the result recovers the original string. -/
def stripEscFuel (special : Char → Bool) : Nat → List Char → Option (List Char)
  | _, [] => some []
  | 0, _ :: _ => none
  | fuel + 1, c :: rest =>
    if c = '\x5c' then
      match bsUncons special rest with
      | some (c2, rest2) => (stripEscFuel special fuel rest2).map (fun r => c2 :: r)
      | none => none
    else if special c then none
    else (stripEscFuel special fuel rest).map (fun r => c :: r)

/-- Decoder for `escBody`; fuel equal to the input length always suffices
because every step consumes at least one character. -/
def stripEsc (special : Char → Bool) (l : List Char) : Option (List Char) :=
  stripEscFuel special l.length l

/-- Tcl single-character backslash substitution inside a double-quoted word:
`\a \b \f \n \r \t \v` become the control characters and any other character
stands for itself.  Multi-character sequences (octal, hexadecimal, unicode,
backslash-newline) are not modelled because `tcl_quote` output cannot
contain them: every backslash of its input is itself escaped. -/
def bsSubst (c : Char) : Char :=
  if c = 'a' then '\x07' else if c = 'b' then '\x08' else if c = 'f' then '\x0c'
  else if c = 'n' then '\n' else if c = 'r' then '\x0d' else if c = 't' then '\t'
  else if c = 'v' then '\x0b' else c

/-- Modelled from the spec: body scanner of a conforming stylized-config
(Tcl) interpreter for a brace-quoted word, which is outside this repository.
Braces nest; a brace quoted by a backslash (the boolean records a pending
backslash) does not count toward nesting; the characters between the outer
braces are taken verbatim, backslashes included, with no substitution.  The
scan succeeds only if the word's closing brace ends the input. -/
def braceAux : Bool → List Char → Nat → List Char → Option (List Char)
  | _, [], _, _ => none
  | true, c :: rest, d, acc => braceAux false rest d (acc ++ [c])
  | false, c :: rest, d, acc =>
    if c = '\x5c' then braceAux true rest d (acc ++ [c])
    else if c = '\x7b' then braceAux false rest (d + 1) (acc ++ [c])
    else if c = '\x7d' then
      (if d = 0 then (if rest.isEmpty then some acc else none)
       else braceAux false rest (d - 1) (acc ++ [c]))
    else braceAux false rest d (acc ++ [c])

/-- Modelled from the spec: a conforming Tcl interpreter's parse of a
complete brace-quoted word back to the string it denotes. -/
def tclParseBraceWord : List Char → Option (List Char)
  | '\x7b' :: rest => braceAux false rest 0 []
  | _ => none

/-- Modelled from the spec: body scanner of a conforming stylized-config
(Tcl) interpreter for a double-quoted word.  Backslash substitution is
performed (the boolean records a pending backslash); an unescaped dollar or
open bracket would trigger variable or command substitution, so the word
does not denote a fixed literal string and the scan rejects it; the word
ends at the first unescaped double quote, which must end the input. -/
def quoteAux : Bool → List Char → List Char → Option (List Char)
  | _, [], _ => none
  | true, c :: rest, acc => quoteAux false rest (acc ++ [bsSubst c])
  | false, c :: rest, acc =>
    if c = '\x22' then (if rest.isEmpty then some acc else none)
    else if c = '\x5c' then quoteAux true rest acc
    else if c = '\x24' then none
    else if c = '\x5b' then none
    else quoteAux false rest (acc ++ [c])

/-- Modelled from the spec: a conforming Tcl interpreter's parse of a
complete double-quoted word back to the literal string it denotes. -/
def tclParseQuoteWord : List Char → Option (List Char)
  | '\x22' :: rest => quoteAux false rest []
  | _ => none

/-- C1: the design-name validation in `prepare` examines only the first
character.  The name "my-design" contains the invalid character '-', yet the
anchored `re.match` finds nothing, so `prepare` raises no ValueError; the
claim (and the comment in the source) require rejection of an invalid
character at any position.  A leading invalid character is still caught. -/
theorem c1_name_validation_first_char_only :
  invalid_char_match ("my-design".toList) = none
  ∧ '-' ∈ "my-design".toList
  ∧ isWordChar '-' = false
  ∧ invalid_char_match ("-design".toList) = some '-' := by decide

/-- C3: `get_override` resolves by the fixed precedence chain.  When the
environment variable `AMARANTH_ENV_<name>` is set its value wins over any
call-time keyword, with exactly the two-character literal `""` normalized to
the empty string; otherwise a call-time string keyword is dedented and
stripped, a non-string keyword passes through unchanged, and an absent
option yields the strict-undefined marker carrying the option name. -/
theorem c3_get_override_precedence (environ : List (List Char × List Char))
    (kwargs : List (List Char × Kwval)) (var : List Char) :
    (∀ v, assocLookup environ (env_var_name var) = some v →
      get_override environ kwargs var = .str (strip_empty_quotes v)
      ∧ strip_empty_quotes ("\x22\x22".toList) = []
      ∧ (v ≠ "\x22\x22".toList → strip_empty_quotes v = v))
    ∧ (assocLookup environ (env_var_name var) = none →
      (∀ s, assocLookup kwargs var = some (.str s) →
        get_override environ kwargs var = .str (pyStrip (pyDedent s)))
      ∧ (∀ t, assocLookup kwargs var = some (.other t) →
        get_override environ kwargs var = .other t)
      ∧ (assocLookup kwargs var = none →
        get_override environ kwargs var = .undef var)) := by
  constructor
  · intro v hv
    refine ⟨?_, by decide, ?_⟩
    · simp [get_override, hv]
    · intro hne
      rw [strip_empty_quotes, if_neg hne]
  · intro hnone
    refine ⟨?_, ?_, ?_⟩
    · intro s hs
      simp [get_override, hnone, hs]
    · intro t ht
      simp [get_override, hnone, ht]
    · intro hk
      simp [get_override, hnone, hk]

/-- Witness for C3: with the environment set, the environment value wins over
the conflicting keyword; with it unset, the keyword value (dedented and
stripped) is used; with both absent, the unresolved marker names the option. -/
theorem c3_get_override_precedence_witness :
    get_override envW kwW ("opt".toList) = .str (strip_empty_quotes ("x".toList))
    ∧ get_override [] kwW ("opt".toList) = .str (pyStrip (pyDedent ("  y ".toList)))
    ∧ get_override [] kwW ("num".toList) = .other 7
    ∧ get_override [] [] ("opt".toList) = .undef ("opt".toList) :=
  ⟨((c3_get_override_precedence envW kwW ("opt".toList)).1 ("x".toList) (by decide)).1,
   ((c3_get_override_precedence [] kwW ("opt".toList)).2 (by decide)).1 ("  y ".toList) (by decide),
   ((c3_get_override_precedence [] kwW ("num".toList)).2 (by decide)).2.1 7 (by decide),
   ((c3_get_override_precedence [] [] ("opt".toList)).2 (by decide)).2.2 (by decide)⟩

/-- C9: the platform constructor accepts exactly the toolchain values
"Docker" and "Local" (anything else trips the assertion), the accepted value
is stored unchanged, the Docker profile requires exactly the docker tool,
and the Local profile requires no tool. -/
theorem c9_toolchain_profiles (t : List Char) :
    ((openlane_init t).isSome ↔ (t = "Docker".toList ∨ t = "Local".toList))
    ∧ openlane_init ("Docker".toList) = some ("Docker".toList)
    ∧ openlane_init ("Local".toList) = some ("Local".toList)
    ∧ required_tools ("Docker".toList) = some ["docker".toList]
    ∧ required_tools ("Local".toList) = some [] := by
  refine ⟨?_, by decide, by decide, by decide, by decide⟩
  constructor
  · intro hs
    by_contra hne
    rw [openlane_init, if_neg hne] at hs
    simp at hs
  · intro h
    rw [openlane_init, if_pos h]
    rfl

/-- C2: applied to "sync" on a platform with a default clock and no default
reset, the callback returns a module with exactly one domain "sync" and one
`ResetSynchronizer`, appends the requested clock pin to the port list,
creates a fresh signal named "rst" (given that no port, including the fresh
clock pin, is already named "rst"), appends it, and registers it as the
default reset; on a platform with no default clock it returns `None` and
leaves platform state and port list unchanged. -/
theorem c2_create_missing_domain (req : List Char → Signal) (p : PlatformState)
    (ports : List Signal) :
    (∀ c, p.default_clk = some c → p.default_rst = none →
      (ports ++ [req c]).any (fun s => s.name == "rst".toList) = false →
      create_domain req p ports ("sync".toList) =
        some { result := some (mkSyncModule (req c) { name := "rst".toList })
               st := { p with default_rst := some ("rst".toList) }
               ports := ports ++ [req c, { name := "rst".toList }] })
    ∧ (p.default_clk = none → ∀ nm, create_domain req p ports nm =
        some { result := none, st := p, ports := ports }) := by
  constructor
  · intro c hclk hrst hno
    simp at hno
    simp [create_domain, hclk, hrst]
    exact hno
  · intro hclk nm
    simp [create_domain, hclk]

/-- Witness for C2 at a concrete platform, pin oracle, and empty port list. -/
theorem c2_create_missing_domain_witness :
    create_domain reqW pW [] ("sync".toList) =
      some { result := some (mkSyncModule (reqW ("clk".toList)) { name := "rst".toList })
             st := { pW with default_rst := some ("rst".toList) }
             ports := [] ++ [reqW ("clk".toList), { name := "rst".toList }] }
    ∧ create_domain reqW pNoClkW [] ("sync".toList) =
      some { result := none, st := pNoClkW, ports := [] } :=
  ⟨(c2_create_missing_domain reqW pW []).1 ("clk".toList) rfl rfl (by decide),
   (c2_create_missing_domain reqW pNoClkW []).2 rfl ("sync".toList)⟩

/-- C10: synthesizing the fresh reset assigns "rst" to the platform's
`default_rst` attribute, and this mutation persists: a second invocation of
the callback on the resulting platform state takes the declared-default-reset
branch, requesting the resource named "rst" instead of synthesizing a fresh
signal, and leaves the state unchanged. -/
theorem c10_default_rst_mutation (req : List Char → Signal) (p : PlatformState)
    (ports ports2 : List Signal) (c : List Char)
    (hclk : p.default_clk = some c) (hrst : p.default_rst = none)
    (hno : (ports ++ [req c]).any (fun s => s.name == "rst".toList) = false) :
    create_domain req p ports ("sync".toList) =
      some { result := some (mkSyncModule (req c) { name := "rst".toList })
             st := { p with default_rst := some ("rst".toList) }
             ports := ports ++ [req c, { name := "rst".toList }] }
    ∧ create_domain req { p with default_rst := some ("rst".toList) } ports2 ("sync".toList) =
      some { result := some (mkSyncModule (req c) (req ("rst".toList)))
             st := { p with default_rst := some ("rst".toList) }
             ports := ports2 ++ [req c] } := by
  constructor
  · simp at hno
    simp [create_domain, hclk, hrst]
    exact hno
  · simp [create_domain, hclk]

/-- Witness for C10 at a concrete platform and pin oracle. -/
theorem c10_default_rst_mutation_witness :
    create_domain reqW pW [] ("sync".toList) =
      some { result := some (mkSyncModule (reqW ("clk".toList)) { name := "rst".toList })
             st := { pW with default_rst := some ("rst".toList) }
             ports := [] ++ [reqW ("clk".toList), { name := "rst".toList }] }
    ∧ create_domain reqW { pW with default_rst := some ("rst".toList) } [] ("sync".toList) =
      some { result := some (mkSyncModule (reqW ("clk".toList)) (reqW ("rst".toList)))
             st := { pW with default_rst := some ("rst".toList) }
             ports := [] ++ [reqW ("clk".toList)] } :=
  c10_default_rst_mutation reqW pW [] [] ("clk".toList) rfl rfl (by decide)

/-- Auxiliary for C8: folding `add_file` over a list of entries, when it
succeeds, preserves the script name, appends exactly the given entries in
order, and preserves distinctness of filenames. -/
theorem foldlM_add_file (l : List (List Char × List Char)) :
    ∀ p q : BuildPlan,
      List.foldlM (fun a (fc : List Char × List Char) => add_file a fc.1 fc.2) p l = some q →
      q.script = p.script ∧ q.files = p.files ++ l
      ∧ ((p.files.map Prod.fst).Nodup → (q.files.map Prod.fst).Nodup) := by
  induction l with
  | nil =>
    intro p q h
    simp only [List.foldlM_nil, Option.pure_def, Option.some.injEq] at h
    subst h
    simp
  | cons fc rest ih =>
    intro p q h
    simp only [List.foldlM_cons] at h
    obtain ⟨p', hp', hrest⟩ := Option.bind_eq_some.mp h
    rw [add_file] at hp'
    by_cases hmem : fc.1 ∈ p.files.map Prod.fst
    · rw [if_pos hmem] at hp'
      exact absurd hp' (by simp)
    · rw [if_neg hmem] at hp'
      obtain rfl := Option.some.injEq _ _ ▸ hp'
      have h3 := ih _ q hrest
      simp only at h3
      refine ⟨h3.1, ?_, ?_⟩
      · rw [h3.2.1]
        simp
      · intro hnd
        apply h3.2.2
        simp only [List.map_append, List.map_cons, List.map_nil]
        rw [List.nodup_append]
        refine ⟨hnd, List.nodup_singleton _, ?_⟩
        intro a ha hb
        simp only [List.mem_singleton] at hb
        subst hb
        exact hmem ha

/-- Auxiliary for C8: the rendered-template fold is the plain `add_file`
fold over the rendered pairs. -/
theorem foldlM_add_file_map (render : List Char → List Char)
    (l : List (List Char × List Char)) :
    ∀ p : BuildPlan,
      List.foldlM (fun a (t : List Char × List Char) => add_file a (render t.1) (render t.2)) p l
        = List.foldlM (fun a (fc : List Char × List Char) => add_file a fc.1 fc.2) p
            (l.map (fun t => (render t.1, render t.2))) := by
  induction l with
  | nil => intro p; rfl
  | cons t rest ih =>
    intro p
    simp only [List.map_cons, List.foldlM_cons]
    cases add_file p (render t.1) (render t.2) with
    | none => rfl
    | some p' => exact ih p'

/-- C8: a successfully assembled build plan names its entry script
`"build_" + name`, contains one rendered entry per file-template pair in
declaration order followed by the extra files verbatim, and no two of its
entries share a filename. -/
theorem c8_build_plan (nm : List Char) (render : List Char → List Char)
    (fts extras : List (List Char × List Char)) (plan : BuildPlan)
    (h : assemble_plan nm render fts extras = some plan) :
    plan.script = "build_".toList ++ nm
    ∧ plan.files = fts.map (fun t => (render t.1, render t.2)) ++ extras
    ∧ (plan.files.map Prod.fst).Nodup := by
  rw [assemble_plan] at h
  simp only [bind, Option.bind_eq_bind] at h
  obtain ⟨p1, h1, h2⟩ := Option.bind_eq_some.mp h
  rw [foldlM_add_file_map] at h1
  have f1 := foldlM_add_file _ _ _ h1
  have f2 := foldlM_add_file _ _ _ h2
  refine ⟨?_, ?_, ?_⟩
  · rw [f2.1, f1.1]
  · rw [f2.2.1, f1.2.1]
    simp
  · apply f2.2.2
    apply f1.2.2
    simp

/-- Witness for C8 at a concrete name, identity renderer, two file templates
and one extra file. -/
theorem c8_build_plan_witness :
    planW.script = "build_".toList ++ "top".toList
    ∧ planW.files = ftsW.map (fun t => (id t.1, id t.2)) ++ exW
    ∧ (planW.files.map Prod.fst).Nodup :=
  c8_build_plan ("top".toList) id ftsW exW planW (by decide)

/-- Auxiliary: `splitLines` never returns an empty list of lines. -/
theorem splitLines_ne_nil (s : List Char) : splitLines s ≠ [] := by
  cases s with
  | nil => simp [splitLines]
  | cons c rest =>
    simp only [splitLines]
    by_cases hc : c = '\n'
    · simp [hc]
    · rw [if_neg hc]
      cases splitLines rest <;> simp

/-- Auxiliary: the `splitLines` equation for a leading newline. -/
theorem splitLines_cons_nl (rest : List Char) :
    splitLines ('\n' :: rest) = [] :: splitLines rest := by
  rw [splitLines, if_pos rfl]

/-- Auxiliary: the `splitLines` equation for a leading non-newline. -/
theorem splitLines_cons_other (c : Char) (rest : List Char) (hc : ¬ c = '\n') :
    splitLines (c :: rest) =
      match splitLines rest with
      | [] => [[c]]
      | l :: ls => (c :: l) :: ls := by
  rw [splitLines, if_neg hc]

/-- Auxiliary: a newline-free string is a single line. -/
theorem splitLines_no_nl (s : List Char) (h : '\n' ∉ s) : splitLines s = [s] := by
  induction s with
  | nil => rfl
  | cons c rest ih =>
    simp only [List.mem_cons, not_or] at h
    have hc : ¬ c = '\n' := fun hc => h.1 hc.symm
    rw [splitLines_cons_other c rest hc, ih h.2]

/-- Auxiliary: splitting distributes over a newline that joins two pieces. -/
theorem splitLines_append_nl (x y : List Char) :
    splitLines (x ++ '\n' :: y) = splitLines x ++ splitLines y := by
  induction x with
  | nil => simp [splitLines_cons_nl, splitLines]
  | cons c x' ih =>
    by_cases hc : c = '\n'
    · subst hc
      rw [List.cons_append, splitLines_cons_nl, splitLines_cons_nl, ih, List.cons_append]
    · rw [List.cons_append, splitLines_cons_other c _ hc, splitLines_cons_other c _ hc, ih]
      cases hx : splitLines x' with
      | nil => exact absurd hx (splitLines_ne_nil x')
      | cons l ls => simp

/-- Auxiliary: splitting a newline-join yields the concatenation of the
splits of the parts. -/
theorem splitLines_joinNl (xs : List (List Char)) (h : xs ≠ []) :
    splitLines (joinNl xs) = (xs.map splitLines).flatten := by
  induction xs with
  | nil => exact absurd rfl h
  | cons x rest ih =>
    cases rest with
    | nil => simp [joinNl]
    | cons y r =>
      have : joinNl (x :: y :: r) = x ++ '\n' :: joinNl (y :: r) := rfl
      rw [this, splitLines_append_nl, ih (by simp)]
      simp

/-- Auxiliary: flattening a map to singletons is the map itself. -/
theorem flatten_map_single {α β : Type} (L : List α) (f : α → β) :
    (L.map (fun a => [f a])).flatten = L.map f := by
  induction L with
  | nil => rfl
  | cons a rest ih => simp [ih]

/-- Auxiliary: joining newline-free lines and splitting again is the
identity. -/
theorem splitLines_joinNl_no_nl (L : List (List Char))
    (h : ∀ l ∈ L, '\n' ∉ l) (hne : L ≠ []) :
    splitLines (joinNl L) = L := by
  rw [splitLines_joinNl L hne]
  have : L.map splitLines = L.map (fun l => [l]) :=
    List.map_congr_left (fun l hl => splitLines_no_nl l (h l hl))
  rw [this, flatten_map_single]
  simp

/-- Auxiliary: collapsed whitespace never contains a newline (every
whitespace run, newlines included, became a single space). -/
theorem nl_not_mem_collapseWsAux (s : List Char) :
    ∀ b : Bool, '\n' ∉ collapseWsAux b s := by
  induction s with
  | nil => intro b; simp [collapseWsAux]
  | cons c rest ih =>
    intro b
    simp only [collapseWsAux]
    by_cases hc : isPySpace c
    · rw [if_pos hc]
      cases b with
      | true => exact ih true
      | false =>
        intro hm
        rcases List.mem_cons.mp hm with h1 | h2
        · exact absurd h1 (by decide)
        · exact ih true h2
    · rw [if_neg hc]
      intro hm
      rcases List.mem_cons.mp hm with h1 | h2
      · subst h1
        exact hc (by decide)
      · exact ih false h2

/-- Auxiliary: a collapsed command line is newline-free. -/
theorem nl_not_mem_collapseWs (s : List Char) : '\n' ∉ collapseWs s :=
  nl_not_mem_collapseWsAux s false

/-- Auxiliary: the sh tool line is newline-free when the tool name and its
environment-variable name are. -/
theorem nl_not_mem_sh_tool_cmd (tev : List Char → List Char) (n : List Char)
    (hn : '\n' ∉ n) (he : '\n' ∉ tev n) : '\n' ∉ sh_tool_cmd tev n := by
  intro hm
  simp only [sh_tool_cmd, List.mem_append] at hm
  rcases hm with ((((h | h) | h) | h) | h)
  · exact absurd h (by decide)
  · exact he h
  · exact absurd h (by decide)
  · exact hn h
  · exact absurd h (by decide)

/-- Auxiliary: the first bat tool line is newline-free when the
environment-variable name is. -/
theorem nl_not_mem_bat_line1 (tev : List Char → List Char) (n : List Char)
    (he : '\n' ∉ tev n) : '\n' ∉ bat_line1 tev n := by
  intro hm
  simp only [bat_line1, List.mem_append] at hm
  rcases hm with ((((h | h) | h) | h) | h)
  · exact absurd h (by decide)
  · exact he h
  · exact absurd h (by decide)
  · exact he h
  · exact absurd h (by decide)

/-- Auxiliary: the second bat tool line is newline-free when the tool name
and its environment-variable name are. -/
theorem nl_not_mem_bat_line2 (tev : List Char → List Char) (n : List Char)
    (hn : '\n' ∉ n) (he : '\n' ∉ tev n) : '\n' ∉ bat_line2 tev n := by
  intro hm
  simp only [bat_line2, List.mem_append] at hm
  rcases hm with (((((h | h) | h) | h) | h) | h)
  · exact absurd h (by decide)
  · exact he h
  · exact absurd h (by decide)
  · exact he h
  · exact absurd h (by decide)
  · exact hn h

/-- C4 (amended): `emit_commands("sh")` is exactly one tool line per
required tool followed by one collapsed line per command template, so its
line count is tools + templates; `emit_commands("bat")` emits exactly TWO
initialization lines per required tool (the source bat template contains an
embedded newline) followed by one collapsed line per command template, each
ending in `" || exit /b"`. -/
theorem c4_emit_commands_amended (tev : List Char → List Char)
    (tools rendered : List (List Char))
    (htools : ∀ n ∈ tools, '\n' ∉ n ∧ '\n' ∉ tev n)
    (hne : tools ≠ [] ∨ rendered ≠ []) :
    splitLines (emit_commands tev tools rendered .sh)
      = tools.map (sh_tool_cmd tev) ++ rendered.map collapseWs
    ∧ (splitLines (emit_commands tev tools rendered .sh)).length
      = tools.length + rendered.length
    ∧ splitLines (emit_commands tev tools rendered .bat)
      = (tools.map (fun n => [bat_line1 tev n, bat_line2 tev n])).flatten
        ++ rendered.map (fun c => collapseWs c ++ " || exit /b".toList) := by
  have hsh : splitLines (emit_commands tev tools rendered .sh)
      = tools.map (sh_tool_cmd tev) ++ rendered.map collapseWs := by
    rw [emit_commands]
    have hmatch : (tools.map fun n =>
        match Dialect.sh with
        | .sh => sh_tool_cmd tev n
        | .bat => bat_tool_cmd tev n) = tools.map (sh_tool_cmd tev) := rfl
    have hmatch2 : (rendered.map fun c =>
        match Dialect.sh with
        | .sh => collapseWs c
        | .bat => collapseWs c ++ " || exit /b".toList) = rendered.map collapseWs := rfl
    rw [hmatch, hmatch2]
    apply splitLines_joinNl_no_nl
    · intro l hl
      rcases List.mem_append.mp hl with hl | hl
      · obtain ⟨n, hn, rfl⟩ := List.mem_map.mp hl
        exact nl_not_mem_sh_tool_cmd tev n (htools n hn).1 (htools n hn).2
      · obtain ⟨c, _, rfl⟩ := List.mem_map.mp hl
        exact nl_not_mem_collapseWs c
    · intro hnil
      rw [List.append_eq_nil] at hnil
      rcases hne with hne | hne
      · exact hne (List.map_eq_nil_iff.mp hnil.1)
      · exact hne (List.map_eq_nil_iff.mp hnil.2)
  refine ⟨hsh, ?_, ?_⟩
  · rw [hsh]
    simp
  · rw [emit_commands]
    have hmatch : (tools.map fun n =>
        match Dialect.bat with
        | .sh => sh_tool_cmd tev n
        | .bat => bat_tool_cmd tev n) = tools.map (bat_tool_cmd tev) := rfl
    have hmatch2 : (rendered.map fun c =>
        match Dialect.bat with
        | .sh => collapseWs c
        | .bat => collapseWs c ++ " || exit /b".toList)
        = rendered.map (fun c => collapseWs c ++ " || exit /b".toList) := rfl
    rw [hmatch, hmatch2]
    rw [splitLines_joinNl]
    · rw [List.map_append, List.flatten_append, List.map_map, List.map_map]
      congr 1
      · apply congrArg List.flatten
        apply List.map_congr_left
        intro n hn
        show splitLines (bat_tool_cmd tev n) = [bat_line1 tev n, bat_line2 tev n]
        rw [bat_tool_cmd, splitLines_append_nl,
          splitLines_no_nl _ (nl_not_mem_bat_line1 tev n (htools n hn).2),
          splitLines_no_nl _ (nl_not_mem_bat_line2 tev n (htools n hn).1 (htools n hn).2)]
        rfl
      · have : ∀ c ∈ rendered,
            (splitLines ∘ fun c => collapseWs c ++ " || exit /b".toList) c
              = [collapseWs c ++ " || exit /b".toList] := by
          intro c _
          apply splitLines_no_nl
          simp only [List.mem_append, not_or]
          exact ⟨nl_not_mem_collapseWs c, by decide⟩
        rw [List.map_congr_left this, flatten_map_single]
    · intro hnil
      rw [List.append_eq_nil] at hnil
      rcases hne with hne | hne
      · exact hne (List.map_eq_nil_iff.mp hnil.1)
      · exact hne (List.map_eq_nil_iff.mp hnil.2)

/-- C4 (counterexample): with one required tool and one command template the
bat output has three lines, not tools + templates = two, because the bat
tool-initialization entry spans two text lines; so "exactly one
initialization line per required tool" fails for the bat dialect. -/
theorem c4_bat_two_init_lines_counterexample :
    (splitLines (emit_commands tevW toolsW renderedW .bat)).length ≠
      toolsW.length + renderedW.length := by decide

/-- Witness for the amended C4 at a concrete tool list and rendered
command. -/
theorem c4_emit_commands_amended_witness :
    splitLines (emit_commands tevW toolsW renderedW .sh)
      = toolsW.map (sh_tool_cmd tevW) ++ renderedW.map collapseWs
    ∧ (splitLines (emit_commands tevW toolsW renderedW .sh)).length
      = toolsW.length + renderedW.length
    ∧ splitLines (emit_commands tevW toolsW renderedW .bat)
      = (toolsW.map (fun n => [bat_line1 tevW n, bat_line2 tevW n])).flatten
        ++ renderedW.map (fun c => collapseWs c ++ " || exit /b".toList) :=
  c4_emit_commands_amended tevW toolsW renderedW (by decide) (Or.inl (by decide))

/-- Auxiliary: hexadecimal digits are in the word-character class. -/
theorem hexDigitChar_word : ∀ k, k < 16 → isWordChar (hexDigitChar k) = true := by decide

/-- Auxiliary: the fueled hexadecimal conversion only appends word
characters. -/
theorem toHexAux_word (fuel : Nat) : ∀ n acc, acc.all isWordChar = true →
    (toHexAux fuel n acc).all isWordChar = true := by
  induction fuel with
  | zero => intro n acc h; exact h
  | succ fuel ih =>
    intro n acc h
    rw [toHexAux]
    by_cases hn : n < 16
    · rw [if_pos hn]
      simp [List.all_cons, hexDigitChar_word n hn, h]
    · rw [if_neg hn]
      apply ih
      simp [List.all_cons, hexDigitChar_word (n % 16) (Nat.mod_lt n (by omega)), h]

/-- Auxiliary: every character of a two-digit-padded hexadecimal string is a
word character. -/
theorem hex02_word (n : Nat) : (hex02 n).all isWordChar = true := by
  rw [hex02]
  have h := toHexAux_word (n + 1) n [] rfl
  rw [toHex] at *
  by_cases hl : (toHexAux (n + 1) n []).length < 2
  · simp only [if_pos hl, List.all_cons, h, Bool.and_true]
    decide
  · simp only [if_neg hl, h]

/-- Auxiliary: `ascii_escape` emits only word characters, for every input. -/
theorem ascii_escape_word (u : List Char) : (ascii_escape u).all isWordChar = true := by
  induction u with
  | nil => rfl
  | cons c rest ih =>
    rw [ascii_escape, List.flatMap_cons]
    rw [ascii_escape] at ih
    rw [List.all_append, ih, Bool.and_true]
    by_cases hw : isWordChar c
    · simp [hw]
    · rw [if_neg hw]
      simp only [List.all_cons, List.all_append]
      rw [hex02_word c.toNat]
      decide

set_option maxRecDepth 4096 in
/-- Auxiliary: decoding the two-digit hexadecimal form of any byte value
recovers it (finite check over all byte values). -/
theorem decode_hex02_lt : ∀ n, n < 256 → decodeHex02 (hex02 n) = some n := by decide

/-- Auxiliary: the fueled decoder inverts `ascii_escape` on printable-ASCII
strings containing no underscore, for any sufficient fuel. -/
theorem unescapeFuel_escape (s : List Char) :
    ∀ fuel, s.length ≤ fuel →
    (∀ c ∈ s, printableB c = true ∧ c ≠ '_') →
    unescapeFuel fuel (ascii_escape s) = some s := by
  induction s with
  | nil =>
    intro fuel _ _
    cases fuel <;> rfl
  | cons c rest ih =>
    intro fuel hfuel h
    have hc := h c (List.mem_cons_self c rest)
    cases fuel with
    | zero => simp at hfuel
    | succ f =>
      have hfr : rest.length ≤ f := by
        simp only [List.length_cons] at hfuel
        omega
      have ihr := ih f hfr (fun x hx => h x (List.mem_cons_of_mem c hx))
      by_cases hw : isWordChar c
      · have hesc : ascii_escape (c :: rest) = c :: ascii_escape rest := by
          rw [ascii_escape, List.flatMap_cons, if_pos hw]
          rfl
        rw [hesc, unescapeFuel, if_neg hc.2, ihr]
        rfl
      · have hlt : c.toNat < 256 := by
          have h1 := hc.1
          simp only [printableB, Bool.and_eq_true, decide_eq_true_eq] at h1
          omega
        have hdec := decode_hex02_lt c.toNat hlt
        cases hhex : hex02 c.toNat with
        | nil => rw [hhex] at hdec; exact absurd hdec (by simp [decodeHex02])
        | cons d1 t1 =>
          cases t1 with
          | nil => rw [hhex] at hdec; exact absurd hdec (by simp [decodeHex02])
          | cons d2 t2 =>
            cases t2 with
            | cons d3 t3 => rw [hhex] at hdec; exact absurd hdec (by simp [decodeHex02])
            | nil =>
              rw [hhex] at hdec
              simp only [decodeHex02] at hdec
              have hesc : ascii_escape (c :: rest)
                  = '_' :: d1 :: d2 :: '_' :: ascii_escape rest := by
                rw [ascii_escape, List.flatMap_cons, if_neg hw, hhex]
                rfl
              rw [hesc, unescapeFuel, if_pos rfl]
              simp [parseGroup, hdec, ihr, Char.ofNat_toNat]

/-- Auxiliary: escaping never shortens a string. -/
theorem length_le_ascii_escape (s : List Char) : s.length ≤ (ascii_escape s).length := by
  induction s with
  | nil => simp [ascii_escape]
  | cons c rest ih =>
    rw [ascii_escape, List.flatMap_cons, List.length_append]
    rw [ascii_escape] at ih
    by_cases hw : isWordChar c
    · rw [if_pos hw]
      simp only [List.length_cons, List.length_nil, List.length_append]
      omega
    · rw [if_neg hw]
      simp only [List.length_cons, List.length_nil, List.length_append]
      omega

/-- Auxiliary: decoding inverts `ascii_escape` on printable-ASCII strings
that contain no underscore. -/
theorem ascii_unescape_escape (s : List Char)
    (h : ∀ c ∈ s, printableB c = true ∧ c ≠ '_') :
    ascii_unescape (ascii_escape s) = some s := by
  rw [ascii_unescape]
  exact unescapeFuel_escape s (ascii_escape s).length (length_le_ascii_escape s) h

/-- C5 (amended): for every input, `ascii_escape` output is inside
`[A-Za-z0-9_]*`; restricted to printable-ASCII inputs containing no
underscore, decoding each `_hh_` escape recovers the original string, so the
function is injective there.  (On all printable-ASCII inputs injectivity
fails: see the counterexample.) -/
theorem c5_ascii_escape_amended (u s t : List Char)
    (hs : ∀ c ∈ s, printableB c = true ∧ c ≠ '_')
    (ht : ∀ c ∈ t, printableB c = true ∧ c ≠ '_') :
    (ascii_escape u).all isWordChar = true
    ∧ ascii_unescape (ascii_escape s) = some s
    ∧ (ascii_escape s = ascii_escape t → s = t) := by
  refine ⟨ascii_escape_word u, ascii_unescape_escape s hs, ?_⟩
  intro he
  have h1 := ascii_unescape_escape s hs
  have h2 := ascii_unescape_escape t ht
  rw [he, h2] at h1
  exact (Option.some.injEq _ _ ▸ h1).symm

/-- Witness for the amended C5 at concrete strings. -/
theorem c5_ascii_escape_amended_witness :
    (ascii_escape ("a-b!".toList)).all isWordChar = true
    ∧ ascii_unescape (ascii_escape ("a-b".toList)) = some ("a-b".toList)
    ∧ (ascii_escape ("a-b".toList) = ascii_escape ("xy".toList) →
        "a-b".toList = "xy".toList) :=
  c5_ascii_escape_amended ("a-b!".toList) ("a-b".toList) ("xy".toList)
    (by decide) (by decide)

/-- C5 (counterexample): `ascii_escape` is not injective on printable-ASCII
inputs: the escape of "-" (code 0x2d) collides with the all-word-character
input "_2d_", which passes through unchanged. -/
theorem c5_ascii_escape_not_injective_counterexample :
    ascii_escape ("-".toList) = ascii_escape ("_2d_".toList)
    ∧ "-".toList ≠ "_2d_".toList
    ∧ ("-".toList).all printableB = true
    ∧ ("_2d_".toList).all printableB = true := by decide

/-- Auxiliary: escaping a body never shortens it. -/
theorem length_le_escBody (special : Char → Bool) (s : List Char) :
    s.length ≤ (escBody special s).length := by
  induction s with
  | nil => simp [escBody]
  | cons c rest ih =>
    rw [escBody, List.flatMap_cons, List.length_append]
    rw [escBody] at ih
    by_cases hsp : special c
    · rw [if_pos hsp]
      simp only [List.length_cons, List.length_nil]
      omega
    · rw [if_neg hsp]
      simp only [List.length_cons, List.length_nil]
      omega

/-- Auxiliary: the fueled decoder inverts `escBody` whenever the backslash
itself belongs to the escaped class, for any sufficient fuel. -/
theorem stripEscFuel_escBody (special : Char → Bool) (hbs : special '\x5c' = true)
    (s : List Char) : ∀ fuel, s.length ≤ fuel →
    stripEscFuel special fuel (escBody special s) = some s := by
  induction s with
  | nil => intro fuel _; cases fuel <;> rfl
  | cons c rest ih =>
    intro fuel hf
    cases fuel with
    | zero => simp at hf
    | succ f =>
      have hfr : rest.length ≤ f := by
        simp only [List.length_cons] at hf
        omega
      have ihr := ih f hfr
      by_cases hsp : special c
      · have hesc : escBody special (c :: rest) = '\x5c' :: c :: escBody special rest := by
          rw [escBody, List.flatMap_cons, if_pos hsp]
          rfl
        rw [hesc, stripEscFuel, if_pos rfl]
        simp [bsUncons, hsp, ihr]
      · have hc : c ≠ '\x5c' := fun he => hsp (he ▸ hbs)
        have hesc : escBody special (c :: rest) = c :: escBody special rest := by
          rw [escBody, List.flatMap_cons, if_neg hsp]
          rfl
        rw [hesc, stripEscFuel, if_neg hc, if_neg (by simp [hsp]), ihr]
        rfl

/-- Auxiliary: the decoder inverts `escBody` for the two classes used by the
Tcl filters. -/
theorem stripEsc_escBody (special : Char → Bool) (hbs : special '\x5c' = true)
    (s : List Char) : stripEsc special (escBody special s) = some s :=
  stripEscFuel_escBody special hbs s (escBody special s).length
    (length_le_escBody special s)

/-- Auxiliary: escaping is the identity on strings without special
characters. -/
theorem escBody_id (special : Char → Bool) (s : List Char)
    (h : ∀ c ∈ s, special c = false) : escBody special s = s := by
  induction s with
  | nil => rfl
  | cons c rest ih =>
    rw [escBody, List.flatMap_cons, if_neg (by simp [h c (List.mem_cons_self c rest)])]
    rw [escBody] at ih
    rw [ih (fun x hx => h x (List.mem_cons_of_mem c hx))]
    rfl

/-- C7: both Tcl filters return marked-safe (`Markup`) values unchanged (no
double escaping); on any other value `tcl_escape` yields a brace-wrapped
body and `tcl_quote` a quote-wrapped body in which every special character
(brace/backslash, resp. dollar/bracket/backslash) is backslash-escaped, and
stripping those escapes recovers the original string exactly. -/
theorem c7_tcl_filters_markup_and_escaping (s : List Char) :
    tcl_escape (.markup s) = s
    ∧ tcl_quote (.markup s) = s
    ∧ tcl_escape (.str s) = '\x7b' :: (escBody isBraceSpecial s ++ ['\x7d'])
    ∧ tcl_quote (.str s) = '\x22' :: (escBody isQuoteSpecial s ++ ['\x22'])
    ∧ stripEsc isBraceSpecial (escBody isBraceSpecial s) = some s
    ∧ stripEsc isQuoteSpecial (escBody isQuoteSpecial s) = some s :=
  ⟨rfl, rfl, rfl, rfl,
   stripEsc_escBody isBraceSpecial (by decide) s,
   stripEsc_escBody isQuoteSpecial (by decide) s⟩

/-- Auxiliary: the brace scanner passes over an escaped body verbatim,
leaving depth untouched. -/
theorem braceAux_escBody (u : List Char) :
    ∀ rest d acc, braceAux false (escBody isBraceSpecial u ++ rest) d acc
      = braceAux false rest d (acc ++ escBody isBraceSpecial u) := by
  induction u with
  | nil => intro rest d acc; simp [escBody]
  | cons c cs ih =>
    intro rest d acc
    by_cases hsp : isBraceSpecial c
    · have he : escBody isBraceSpecial (c :: cs)
          = '\x5c' :: c :: escBody isBraceSpecial cs := by
        rw [escBody, List.flatMap_cons, if_pos hsp]
        rfl
      rw [he, List.cons_append, List.cons_append, braceAux, if_pos rfl, braceAux, ih]
      congr 1
      simp
    · have h1 : ¬ c = '\x5c' := by
        intro h
        rw [h] at hsp
        exact hsp (by decide)
      have h2 : ¬ c = '\x7b' := by
        intro h
        rw [h] at hsp
        exact hsp (by decide)
      have h3 : ¬ c = '\x7d' := by
        intro h
        rw [h] at hsp
        exact hsp (by decide)
      have he : escBody isBraceSpecial (c :: cs) = c :: escBody isBraceSpecial cs := by
        rw [escBody, List.flatMap_cons, if_neg hsp]
        rfl
      rw [he, List.cons_append, braceAux, if_neg h1, if_neg h2, if_neg h3, ih]
      congr 1
      simp

/-- Auxiliary: a complete `tcl_escape` output always parses as one
brace-quoted word, denoting exactly the escaped body. -/
theorem tclParseBraceWord_tcl_escape (u : List Char) :
    tclParseBraceWord (tcl_escape (.str u)) = some (escBody isBraceSpecial u) := by
  show braceAux false (escBody isBraceSpecial u ++ ['\x7d']) 0 [] = _
  rw [braceAux_escBody u ['\x7d'] 0 []]
  rfl

/-- Auxiliary: the quote scanner passes over an escaped quote-free body,
undoing the escapes. -/
theorem quoteAux_escBody (u : List Char) (hq : ∀ c ∈ u, c ≠ '\x22') :
    ∀ rest acc, quoteAux false (escBody isQuoteSpecial u ++ rest) acc
      = quoteAux false rest (acc ++ u) := by
  induction u with
  | nil => intro rest acc; simp [escBody]
  | cons c cs ih =>
    intro rest acc
    have ihr := ih (fun x hx => hq x (List.mem_cons_of_mem c hx))
    by_cases hsp : isQuoteSpecial c
    · have he : escBody isQuoteSpecial (c :: cs)
          = '\x5c' :: c :: escBody isQuoteSpecial cs := by
        rw [escBody, List.flatMap_cons, if_pos hsp]
        rfl
      have hbq : ¬ ('\x5c' : Char) = '\x22' := by decide
      have hsub : bsSubst c = c := by
        simp only [isQuoteSpecial, Bool.or_eq_true, decide_eq_true_eq] at hsp
        rcases hsp with (h | h) | h <;> rw [h] <;> decide
      rw [he, List.cons_append, List.cons_append, quoteAux, if_neg hbq, if_pos rfl,
        quoteAux, hsub, ihr]
      congr 1
      simp
    · have h0 : ¬ c = '\x22' := hq c (List.mem_cons_self c cs)
      have h1 : ¬ c = '\x5c' := by
        intro h
        rw [h] at hsp
        exact hsp (by decide)
      have h2 : ¬ c = '\x24' := by
        intro h
        rw [h] at hsp
        exact hsp (by decide)
      have h3 : ¬ c = '\x5b' := by
        intro h
        rw [h] at hsp
        exact hsp (by decide)
      have he : escBody isQuoteSpecial (c :: cs) = c :: escBody isQuoteSpecial cs := by
        rw [escBody, List.flatMap_cons, if_neg hsp]
        rfl
      rw [he, List.cons_append, quoteAux, if_neg h0, if_neg h1, if_neg h2, if_neg h3, ihr]
      congr 1
      simp

/-- C6 (amended): `tcl_escape` output always parses as a single well-formed
brace word (so it never contains an unescaped unmatched brace), but the word
denotes the ESCAPED body — backslashes inside braces are not substituted by
Tcl — so the round trip recovers the original string exactly when it
contains no brace and no backslash; `tcl_quote` round-trips exactly when the
original contains no double quote (the quote character is not escaped). -/
theorem c6_tcl_roundtrip_amended (u s t : List Char)
    (hs : ∀ c ∈ s, isBraceSpecial c = false)
    (ht : ∀ c ∈ t, c ≠ '\x22') :
    tclParseBraceWord (tcl_escape (.str u)) = some (escBody isBraceSpecial u)
    ∧ tclParseBraceWord (tcl_escape (.str s)) = some s
    ∧ tclParseQuoteWord (tcl_quote (.str t)) = some t := by
  refine ⟨tclParseBraceWord_tcl_escape u, ?_, ?_⟩
  · rw [tclParseBraceWord_tcl_escape s, escBody_id isBraceSpecial s hs]
  · show quoteAux false (escBody isQuoteSpecial t ++ ['\x22']) [] = some t
    rw [quoteAux_escBody t ht ['\x22'] []]
    simp [quoteAux]

/-- Witness for the amended C6 at concrete strings. -/
theorem c6_tcl_roundtrip_amended_witness :
    tclParseBraceWord (tcl_escape (.str ("a\x7bb\x5c".toList)))
      = some (escBody isBraceSpecial ("a\x7bb\x5c".toList))
    ∧ tclParseBraceWord (tcl_escape (.str ("hello world".toList)))
      = some ("hello world".toList)
    ∧ tclParseQuoteWord (tcl_quote (.str ("a$[b\\c".toList)))
      = some ("a$[b\\c".toList) :=
  c6_tcl_roundtrip_amended ("a\x7bb\x5c".toList) ("hello world".toList)
    ("a$[b\\c".toList) (by decide) (by decide)

/-- C6 (counterexample): the round trip fails as stated.  For the input
consisting of one backslash, `tcl_escape` produces a brace word denoting two
backslashes (Tcl performs no backslash substitution between braces); for the
input consisting of one double quote, `tcl_quote` produces ill-formed output
(the quote character is not escaped), so no string at all is recovered. -/
theorem c6_tcl_roundtrip_counterexample :
    tclParseBraceWord (tcl_escape (.str ['\x5c'])) ≠ some ['\x5c']
    ∧ tclParseBraceWord (tcl_escape (.str ['\x5c'])) = some ['\x5c', '\x5c']
    ∧ tclParseQuoteWord (tcl_quote (.str ['\x22'])) ≠ some ['\x22']
    ∧ tclParseQuoteWord (tcl_quote (.str ['\x22'])) = none := by decide
